import Mathlib

/-!
Verification of the owl web framework's core subsystems, shallowly embedded
from the Go source: the session manager and in-memory store
(`session/session.go`), the CSRF token checker (`csrf/csrf.go`), the
AES-256-GCM cypher wrapper (`cypher/aes256.go`, `cypher/cookie.go`) and the
reflection-based dependency injector (`injector.go`).

Timestamps and durations are modelled as integers (`Time := Int`, one unit per
second or nanosecond uniformly; only order and addition matter). Go maps are
modelled as association lists with unique keys; randomness (session ids,
nonces) is passed in explicitly as an oracle argument.
-/

namespace Owl

/-- Timestamps and durations (`time.Time` / `time.Duration`). -/
abbrev Time := Int

/-- `session.Id`: an opaque session id token (a string in the source). -/
abbrev Id := String

/-- `core.Role` is an `int64` in the source. -/
abbrev Role := Int

/-- `session.User`: the principal bound to a session. -/
structure User where
  id : Int
  name : String
  roles : List Role
  image : String
deriving DecidableEq, Repr

/-- `session.Entry`: a persisted session record. -/
structure Entry where
  id : Id
  user : User
  timeout : Time
deriving DecidableEq, Repr

/-- `Entry.IsValid`: `time.Now().Before(entry.Timeout)`, with the current time
passed explicitly. -/
def Entry.IsValid (entry : Entry) (now : Time) : Bool :=
  now < entry.timeout

/-- Errors produced on the session read path.  The Go code returns distinct
`error` values; this type records which one. -/
inductive SessionError where
  /-- `MemoryStore.Get`: "no session entry for id ..." -/
  | entryNotFound
  /-- `Manager.GetUserIfValid`: "expired session" -/
  | expiredSession
  /-- `readSessionId`: "no session cookie is present in the request" -/
  | noCookie
  /-- `readSessionId`: `cypher.DecodeCookie` failed -/
  | decodeFailed
  /-- `Manager.ReadSessionCookie`: "expired session cookie" -/
  | expiredSessionCookie
deriving DecidableEq, Repr

/-- `session.MemoryStore.values`: the Go map `map[Id]Entry`, modelled as an
association list with unique keys. -/
abbrev MemoryStore := List (Id × Entry)

namespace MemoryStore

/-- The store invariant of a Go map: each key appears at most once. -/
def keysNodup (s : MemoryStore) : Prop :=
  (s.map Prod.fst).Nodup

instance (s : MemoryStore) : Decidable (keysNodup s) := by
  unfold keysNodup; infer_instance

/-- Go's `delete(store.values, id)`. -/
def erase (s : MemoryStore) (id : Id) : MemoryStore :=
  s.filter (fun p => p.1 != id)

/-- `MemoryStore.Save`: `store.values[entry.Id] = entry` (map upsert). -/
def Save (s : MemoryStore) (entry : Entry) : MemoryStore :=
  (entry.id, entry) :: erase s entry.id

/-- `MemoryStore.Get`: map lookup, failing with `EntryNotFound` when absent. -/
def Get (s : MemoryStore) (id : Id) : Except SessionError Entry :=
  match s.lookup id with
  | some entry => .ok entry
  | none => .error .entryNotFound

/-- `MemoryStore.Delete`: removes the entry, idempotent. -/
def Delete (s : MemoryStore) (id : Id) : MemoryStore :=
  erase s id

/-- `MemoryStore.RecollectGarbage`: `for key, entry := range store.values
{ if !entry.IsValid() { delete(store.values, key) } }` — a fold over the
iteration snapshot, deleting from the evolving map. -/
def RecollectGarbage (s : MemoryStore) (now : Time) : MemoryStore :=
  s.foldl (fun acc p => if ¬ p.2.IsValid now then erase acc p.1 else acc) s

/-- `MemoryStore.Invalidate`: `for key, entry := range store.values
{ if entry.User.Id == userId { delete(store.values, key) } }`. -/
def Invalidate (s : MemoryStore) (userId : Int) : MemoryStore :=
  s.foldl (fun acc p => if p.2.user.id = userId then erase acc p.1 else acc) s

theorem lookup_erase_self (s : MemoryStore) (id : Id) :
    (erase s id).lookup id = none := by
  induction s with
  | nil => rfl
  | cons p rest ih =>
    by_cases hp : p.1 = id
    · simpa [erase, hp] using ih
    · simpa [erase, List.lookup_cons, hp, Ne.symm hp] using ih

theorem lookup_erase_ne (s : MemoryStore) (id k : Id) (h : k ≠ id) :
    (erase s id).lookup k = s.lookup k := by
  induction s with
  | nil => rfl
  | cons p rest ih =>
    rcases p with ⟨a, e⟩
    by_cases hp : a = id
    · subst hp
      have hk : (k == a) = false := beq_eq_false_iff_ne.mpr h
      simp only [erase, List.filter_cons] at ih ⊢
      simp only [bne_self_eq_false, Bool.false_eq_true, if_false]
      rw [List.lookup_cons]
      simp only [hk]
      exact ih
    · have hkeep : (a != id) = true := bne_iff_ne.mpr hp
      simp only [erase, List.filter_cons, hkeep, if_true] at ih ⊢
      by_cases hkp : k = a
      · subst hkp
        simp [List.lookup_cons]
      · have h2 : (k == a) = false := beq_eq_false_iff_ne.mpr hkp
        rw [List.lookup_cons, List.lookup_cons]
        simp only [h2]
        exact ih

theorem erase_sublist (s : MemoryStore) (id : Id) : (erase s id).Sublist s :=
  List.filter_sublist s

theorem keysNodup_sublist {s t : MemoryStore} (h : s.Sublist t)
    (ht : keysNodup t) : keysNodup s :=
  List.Nodup.sublist (List.Sublist.map Prod.fst h) ht

theorem keysNodup_erase {s : MemoryStore} (id : Id) (h : keysNodup s) :
    keysNodup (erase s id) :=
  keysNodup_sublist (erase_sublist s id) h

theorem not_mem_keys_erase (s : MemoryStore) (id : Id) :
    id ∉ (erase s id).map Prod.fst := by
  intro hmem
  rcases List.mem_map.mp hmem with ⟨p, hp, hfst⟩
  have := List.of_mem_filter hp
  simp [hfst] at this

theorem keysNodup_Save {s : MemoryStore} (entry : Entry) (h : keysNodup s) :
    keysNodup (Save s entry) := by
  unfold keysNodup Save
  simp only [List.map_cons, List.nodup_cons]
  exact ⟨not_mem_keys_erase s entry.id, keysNodup_erase entry.id h⟩

theorem lookup_Save_self (s : MemoryStore) (entry : Entry) :
    (Save s entry).lookup entry.id = some entry := by
  simp [Save]

theorem lookup_Save_ne (s : MemoryStore) (entry : Entry) (k : Id)
    (h : k ≠ entry.id) :
    (Save s entry).lookup k = s.lookup k := by
  have h1 : (k == entry.id) = false := by simpa using h
  simp [Save, List.lookup_cons, h1, lookup_erase_ne s entry.id k h]

theorem mem_of_lookup {s : MemoryStore} {k : Id} {e : Entry}
    (hlk : s.lookup k = some e) : (k, e) ∈ s := by
  induction s with
  | nil => cases hlk
  | cons q rest ih =>
    rcases q with ⟨a, b⟩
    rw [List.lookup_cons] at hlk
    cases hak : k == a with
    | true =>
      rw [hak] at hlk
      have hk : k = a := by simpa using hak
      cases hlk
      subst hk
      exact List.mem_cons_self _ _
    | false =>
      rw [hak] at hlk
      exact List.mem_cons_of_mem _ (ih hlk)

theorem mem_eq_of_lookup_of_nodup {s : MemoryStore} {k : Id} {e : Entry}
    (h : keysNodup s) (hlk : s.lookup k = some e) :
    ∀ p ∈ s, p.1 = k → p = (k, e) := by
  induction s with
  | nil => intro p hp; cases hp
  | cons q rest ih =>
    rcases q with ⟨a, b⟩
    have hnd := h
    unfold keysNodup at hnd
    rw [List.map_cons, List.nodup_cons] at hnd
    rw [List.lookup_cons] at hlk
    intro p hp hpk
    cases hak : k == a with
    | true =>
      rw [hak] at hlk
      have hk : k = a := by simpa using hak
      cases hlk
      rcases List.mem_cons.mp hp with hph | hpt
      · rw [hph, hk]
      · exfalso
        apply hnd.1
        rw [← hk, ← hpk]
        exact List.mem_map.mpr ⟨p, hpt, rfl⟩
    | false =>
      rw [hak] at hlk
      rcases List.mem_cons.mp hp with hph | hpt
      · exfalso
        have : k = a := by rw [← hpk, hph]
        simp [this] at hak
      · exact ih hnd.2 hlk p hpt hpk

theorem lookup_foldl_erase_of_none (cond : Id × Entry → Prop)
    [DecidablePred cond] :
    ∀ (l : List (Id × Entry)) (acc : MemoryStore) (k : Id),
      (∀ p ∈ l, p.1 = k → ¬ cond p) →
      (l.foldl (fun acc p => if cond p then erase acc p.1 else acc) acc).lookup k
        = acc.lookup k := by
  intro l
  induction l with
  | nil => intro acc k _; rfl
  | cons p rest ih =>
    intro acc k hall
    rw [List.foldl_cons]
    by_cases hc : cond p
    · rw [if_pos hc]
      have hpk : p.1 ≠ k := fun he => hall p (List.mem_cons_self p rest) he hc
      rw [ih (erase acc p.1) k (fun q hq => hall q (List.mem_cons_of_mem p hq))]
      exact lookup_erase_ne acc p.1 k (Ne.symm hpk)
    · rw [if_neg hc]
      exact ih acc k (fun q hq => hall q (List.mem_cons_of_mem p hq))

theorem lookup_foldl_erase_of_hit (cond : Id × Entry → Prop)
    [DecidablePred cond] :
    ∀ (l : List (Id × Entry)) (acc : MemoryStore) (k : Id),
      (∃ p ∈ l, p.1 = k ∧ cond p) →
      (l.foldl (fun acc p => if cond p then erase acc p.1 else acc) acc).lookup k
        = none := by
  intro l
  induction l with
  | nil =>
    intro acc k h
    exact absurd h (by simp)
  | cons p rest ih =>
    intro acc k h
    rw [List.foldl_cons]
    by_cases hrest : ∃ q ∈ rest, q.1 = k ∧ cond q
    · by_cases hc : cond p
      · rw [if_pos hc]; exact ih _ k hrest
      · rw [if_neg hc]; exact ih _ k hrest
    · rcases h with ⟨q, hq, hqk, hqc⟩
      rcases List.mem_cons.mp hq with hqp | hqrest
      · subst hqp
        rw [if_pos hqc]
        rw [lookup_foldl_erase_of_none cond rest (erase acc q.1) k
          (fun r hr hrk hrc => hrest ⟨r, hr, hrk, hrc⟩)]
        rw [hqk]
        exact lookup_erase_self acc k
      · exact absurd ⟨q, hqrest, hqk, hqc⟩ hrest

theorem foldl_erase_sublist (cond : Id × Entry → Prop) [DecidablePred cond] :
    ∀ (l : List (Id × Entry)) (acc : MemoryStore),
      (l.foldl (fun acc p => if cond p then erase acc p.1 else acc) acc).Sublist
        acc := by
  intro l
  induction l with
  | nil => intro acc; exact List.Sublist.refl acc
  | cons p rest ih =>
    intro acc
    rw [List.foldl_cons]
    by_cases hc : cond p
    · rw [if_pos hc]
      exact (ih (erase acc p.1)).trans (erase_sublist acc p.1)
    · rw [if_neg hc]
      exact ih acc

theorem Invalidate_lookup (s : MemoryStore) (uid : Int) (k : Id)
    (h : keysNodup s) :
    (Invalidate s uid).lookup k
      = match s.lookup k with
        | some e => if e.user.id = uid then none else some e
        | none => none := by
  cases hlk : s.lookup k with
  | none =>
    have hnone : ∀ p ∈ s, p.1 = k → ¬ (p.2.user.id = uid) := by
      intro p hp hpk _
      have := List.lookup_eq_none_iff.mp hlk p hp
      simp [hpk] at this
    unfold Invalidate
    rw [lookup_foldl_erase_of_none _ s s k hnone, hlk]
  | some e =>
    by_cases he : e.user.id = uid
    · have hhit : ∃ p ∈ s, p.1 = k ∧ p.2.user.id = uid :=
        ⟨(k, e), mem_of_lookup hlk, rfl, he⟩
      unfold Invalidate
      rw [lookup_foldl_erase_of_hit _ s s k hhit]
      simp [he]
    · have hnone : ∀ p ∈ s, p.1 = k → ¬ (p.2.user.id = uid) := by
        intro p hp hpk
        have hpe := mem_eq_of_lookup_of_nodup h hlk p hp hpk
        rw [hpe]
        exact he
      unfold Invalidate
      rw [lookup_foldl_erase_of_none _ s s k hnone, hlk]
      simp [he]

theorem RecollectGarbage_lookup (s : MemoryStore) (now : Time) (k : Id)
    (h : keysNodup s) :
    (RecollectGarbage s now).lookup k
      = match s.lookup k with
        | some e => if e.timeout ≤ now then none else some e
        | none => none := by
  cases hlk : s.lookup k with
  | none =>
    have hnone : ∀ p ∈ s, p.1 = k → ¬ ¬ (p.2.IsValid now = true) := by
      intro p hp hpk _
      have := List.lookup_eq_none_iff.mp hlk p hp
      simp [hpk] at this
    unfold RecollectGarbage
    rw [lookup_foldl_erase_of_none _ s s k hnone, hlk]
  | some e =>
    by_cases he : e.timeout ≤ now
    · have hhit : ∃ p ∈ s, p.1 = k ∧ ¬ (p.2.IsValid now = true) := by
        refine ⟨(k, e), mem_of_lookup hlk, rfl, ?_⟩
        simp [Entry.IsValid]
        exact he
      unfold RecollectGarbage
      rw [lookup_foldl_erase_of_hit _ s s k hhit]
      simp [he]
    · have hnone : ∀ p ∈ s, p.1 = k → ¬ ¬ (p.2.IsValid now = true) := by
        intro p hp hpk
        have hpe := mem_eq_of_lookup_of_nodup h hlk p hp hpk
        rw [hpe]
        show ¬ ¬ (Entry.IsValid e now = true)
        simp only [Entry.IsValid, not_not, decide_eq_true_eq]
        exact not_le.mp he
      unfold RecollectGarbage
      rw [lookup_foldl_erase_of_none _ s s k hnone, hlk]
      simp [he]

theorem keysNodup_Invalidate {s : MemoryStore} (uid : Int) (h : keysNodup s) :
    keysNodup (Invalidate s uid) :=
  keysNodup_sublist (foldl_erase_sublist _ s s) h

theorem keysNodup_RecollectGarbage {s : MemoryStore} (now : Time)
    (h : keysNodup s) : keysNodup (RecollectGarbage s now) :=
  keysNodup_sublist (foldl_erase_sublist _ s s) h

end MemoryStore

/-- `session.ManagerConfiguration`. -/
structure ManagerConfiguration where
  secure : Bool
  invalidate : Bool
deriving DecidableEq, Repr

/-- The string-level view of a `core.Cypher` as used through
`cypher.EncodeCookie` / `cypher.DecodeCookie` (AEAD encryption plus URL-safe
base64 framing): encoding is total, decoding is fallible. -/
structure StringCypher where
  encodeCookie : String → String
  decodeCookie : String → Option String

/-- `core.OneDayDuration` (24h), in seconds. -/
def OneDayDuration : Time := 86400

namespace Manager

/-- `Manager.Add`: builds the entry with `Timeout = now + timeoutDuration`,
optionally invalidates the principal's old entries, saves, then runs garbage
collection.  The randomly generated session id (`createSessionId`) and the
current time are passed in explicitly. -/
def Add (cfg : ManagerConfiguration) (timeoutDuration : Time) (freshId : Id)
    (now : Time) (user : User) (s : MemoryStore) : MemoryStore × Entry :=
  let entry : Entry := { id := freshId, user := user, timeout := now + timeoutDuration }
  let s1 := if cfg.invalidate then MemoryStore.Invalidate s user.id else s
  let s2 := MemoryStore.Save s1 entry
  let s3 := MemoryStore.RecollectGarbage s2 now
  (s3, entry)

/-- `Manager.Get`: garbage-collects, then reads the store. -/
def Get (now : Time) (s : MemoryStore) (id : Id) :
    MemoryStore × Except SessionError Entry :=
  let s1 := MemoryStore.RecollectGarbage s now
  (s1, MemoryStore.Get s1 id)

/-- `Manager.GetUserIfValid`: propagates the `Get` error; if the entry is
still valid returns its user, otherwise deletes it and fails with
"expired session". -/
def GetUserIfValid (now : Time) (s : MemoryStore) (id : Id) :
    MemoryStore × Except SessionError User :=
  match Get now s id with
  | (s1, .error e) => (s1, .error e)
  | (s1, .ok entry) =>
    if entry.IsValid now then
      (s1, .ok entry.user)
    else
      (MemoryStore.Delete s1 id, .error .expiredSession)

end Manager

/-- The session cookie as set by `CreateSessionCookie` / seen by
`ReadSessionCookie`: only the fields the read path inspects. -/
structure HttpCookie where
  value : String
  expires : Time
deriving DecidableEq, Repr

namespace Manager

/-- `Manager.CreateSessionCookie`: adds the session, encrypts its id with
`cypher.EncodeCookie`, and sets a cookie with
`Expires = time.Now().Add(core.OneDayDuration)`. -/
def CreateSessionCookie (cy : StringCypher) (cfg : ManagerConfiguration)
    (timeoutDuration : Time) (freshId : Id) (now : Time) (user : User)
    (s : MemoryStore) : MemoryStore × HttpCookie :=
  let (s1, entry) := Add cfg timeoutDuration freshId now user s
  let encoded := cy.encodeCookie entry.id
  (s1, { value := encoded, expires := now + OneDayDuration })

/-- `session.readSessionId`: fails when the request has no session cookie,
or when `cypher.DecodeCookie` fails. -/
def readSessionId (cy : StringCypher) (req : Option HttpCookie) :
    Except SessionError (Id × HttpCookie) :=
  match req with
  | none => .error .noCookie
  | some cookie =>
    match cy.decodeCookie cookie.value with
    | none => .error .decodeFailed
    | some id => .ok (id, cookie)

/-- `Manager.ReadSessionCookie`: decodes the session id, then rejects the
cookie when `cookie.Expires.After(time.Now())`, then defers to
`GetUserIfValid`. -/
def ReadSessionCookie (cy : StringCypher) (now : Time)
    (req : Option HttpCookie) (s : MemoryStore) :
    MemoryStore × Except SessionError User :=
  match readSessionId cy req with
  | .error e => (s, .error e)
  | .ok (sessionId, cookie) =>
    if now < cookie.expires then
      (s, .error .expiredSessionCookie)
    else
      GetUserIfValid now s sessionId

end Manager

theorem gc_lookup_none {s : MemoryStore} {id : Id} (t : Time)
    (h : MemoryStore.keysNodup s) (hlk : s.lookup id = none) :
    (MemoryStore.RecollectGarbage s t).lookup id = none := by
  rw [MemoryStore.RecollectGarbage_lookup s t id h, hlk]

instance exceptDecEq {ε α : Type} [DecidableEq ε] [DecidableEq α] :
    DecidableEq (Except ε α) := fun x y =>
  match x, y with
  | .ok a, .ok b =>
    if h : a = b then isTrue (by rw [h])
    else isFalse (by intro hc; cases hc; exact h rfl)
  | .ok _, .error _ => isFalse (by intro hc; cases hc)
  | .error _, .ok _ => isFalse (by intro hc; cases hc)
  | .error e1, .error e2 =>
    if h : e1 = e2 then isTrue (by rw [h])
    else isFalse (by intro hc; cases hc; exact h rfl)

theorem gc_lookup_valid {s : MemoryStore} {id : Id} {e : Entry} (t : Time)
    (h : MemoryStore.keysNodup s) (hlk : s.lookup id = some e)
    (hv : t < e.timeout) :
    (MemoryStore.RecollectGarbage s t).lookup id = some e := by
  rw [MemoryStore.RecollectGarbage_lookup s t id h, hlk]
  show (if e.timeout ≤ t then none else some e) = some e
  exact if_neg (not_le.mpr hv)

theorem getUserIfValid_eq_of_gc_none (t : Time) (s : MemoryStore) (id : Id)
    (hlk : (MemoryStore.RecollectGarbage s t).lookup id = none) :
    Manager.GetUserIfValid t s id
      = (MemoryStore.RecollectGarbage s t, .error .entryNotFound) := by
  simp only [Manager.GetUserIfValid, Manager.Get, MemoryStore.Get, hlk]

theorem getUserIfValid_eq_of_gc_valid (t : Time) (s : MemoryStore) (id : Id)
    (e : Entry) (hlk : (MemoryStore.RecollectGarbage s t).lookup id = some e)
    (hv : t < e.timeout) :
    Manager.GetUserIfValid t s id
      = (MemoryStore.RecollectGarbage s t, .ok e.user) := by
  have hvb : e.IsValid t = true := by
    simp only [Entry.IsValid, decide_eq_true_eq]
    exact hv
  simp only [Manager.GetUserIfValid, Manager.Get, MemoryStore.Get, hlk, hvb,
    if_true]

/-- C10: `Invalidate(principalId)` removes exactly the entries whose user id
equals `principalId` and leaves every other entry unchanged, and
`RecollectGarbage` removes exactly the entries whose timeout has passed and
leaves every still-valid entry unchanged (for stores satisfying the Go-map
invariant of unique keys). -/
theorem c10_store_mutation_frame (s : MemoryStore) (uid : Int) (now : Time)
    (k : Id) (h : MemoryStore.keysNodup s) :
    ((MemoryStore.Invalidate s uid).lookup k
        = match s.lookup k with
          | some e => if e.user.id = uid then none else some e
          | none => none)
  ∧ ((MemoryStore.RecollectGarbage s now).lookup k
        = match s.lookup k with
          | some e => if e.timeout ≤ now then none else some e
          | none => none) :=
  ⟨MemoryStore.Invalidate_lookup s uid k h,
   MemoryStore.RecollectGarbage_lookup s now k h⟩

def w10s : MemoryStore :=
  [("a", { id := "a", user := { id := 1, name := "u1", roles := [], image := "" },
           timeout := 10 }),
   ("b", { id := "b", user := { id := 2, name := "u2", roles := [], image := "" },
           timeout := 3 })]

theorem c10_store_mutation_frame_witness :
    ((MemoryStore.Invalidate w10s 1).lookup "a"
        = match w10s.lookup "a" with
          | some e => if e.user.id = 1 then none else some e
          | none => none)
  ∧ ((MemoryStore.RecollectGarbage w10s 5).lookup "a"
        = match w10s.lookup "a" with
          | some e => if e.timeout ≤ 5 then none else some e
          | none => none) :=
  c10_store_mutation_frame w10s 1 5 "a" (by decide)

/-- C2 (amended): when the stored entry's expiry timestamp has passed,
reading the session fails — but with the `EntryNotFound` error rather than
`ExpiredSession`, because `Manager.Get` garbage-collects before the store
lookup, so the expired entry is already deleted when the lookup runs; the
subsequent store `Get` for that id also fails with `EntryNotFound`. -/
theorem c2_session_expiry_entry_not_found (s : MemoryStore) (id : Id)
    (e : Entry) (now : Time) (h : MemoryStore.keysNodup s)
    (hlk : s.lookup id = some e) (hexp : e.timeout ≤ now) :
    (Manager.GetUserIfValid now s id).2 = .error .entryNotFound
      ∧ MemoryStore.Get (Manager.GetUserIfValid now s id).1 id
          = .error .entryNotFound := by
  have hgc : (MemoryStore.RecollectGarbage s now).lookup id = none := by
    rw [MemoryStore.RecollectGarbage_lookup s now id h, hlk]
    simp [hexp]
  have heq := getUserIfValid_eq_of_gc_none now s id hgc
  constructor
  · rw [heq]
  · simp only [heq]
    unfold MemoryStore.Get
    rw [hgc]

def c2store : MemoryStore :=
  [("a", { id := "a", user := { id := 1, name := "bob", roles := [], image := "" },
           timeout := 5 })]

/-- C2 counterexample: at time 10 the sole entry of `c2store` (timeout 5) has
expired, yet `GetUserIfValid` fails with `EntryNotFound`, not with the
`ExpiredSession` error the claim requires. -/
theorem c2_session_expiry_counterexample :
    (Manager.GetUserIfValid 10 c2store "a").2 = .error .entryNotFound
      ∧ (Manager.GetUserIfValid 10 c2store "a").2
          ≠ .error .expiredSession := by
  decide

theorem managerGet_error (now : Time) (s : MemoryStore) (id : Id)
    {s1 : MemoryStore} {e : SessionError}
    (hg : Manager.Get now s id = (s1, .error e)) : e = .entryNotFound := by
  simp only [Manager.Get, MemoryStore.Get] at hg
  cases hlk : (MemoryStore.RecollectGarbage s now).lookup id with
  | some entry =>
    rw [hlk] at hg
    have h2 := congrArg Prod.snd hg
    simp at h2
  | none =>
    rw [hlk] at hg
    have h2 := congrArg Prod.snd hg
    simp only [] at h2
    cases h2
    rfl

theorem getUserIfValid_snd_ne_expiredCookie (now : Time) (s : MemoryStore)
    (id : Id) :
    (Manager.GetUserIfValid now s id).2 ≠ .error .expiredSessionCookie := by
  unfold Manager.GetUserIfValid
  cases hg : Manager.Get now s id with
  | mk s1 r =>
    cases r with
    | error e =>
      have he := managerGet_error now s id hg
      subst he
      simp
    | ok entry =>
      by_cases hv : entry.IsValid now
      · simp [hv]
      · simp [hv]

/-- C9: `ReadSessionCookie` rejects a (decodable) session cookie as an
expired session cookie exactly when the cookie's `Expires` is after the
current time — the inverted comparison `cookie.Expires.After(time.Now())`
in the source, which rejects unexpired cookies. -/
theorem c9_cookie_expiry_check_inverted (cy : StringCypher) (now : Time)
    (s : MemoryStore) (cookie : HttpCookie) (id : Id)
    (hdec : cy.decodeCookie cookie.value = some id) :
    (Manager.ReadSessionCookie cy now (some cookie) s).2
        = .error .expiredSessionCookie
      ↔ now < cookie.expires := by
  simp only [Manager.ReadSessionCookie, Manager.readSessionId]
  rw [hdec]
  by_cases hexp : now < cookie.expires
  · simp [hexp]
  · simp [hexp, getUserIfValid_snd_ne_expiredCookie]

def c9cy : StringCypher :=
  { encodeCookie := fun s => s, decodeCookie := fun s => some s }

theorem c9_cookie_expiry_check_inverted_witness :
    (Manager.ReadSessionCookie c9cy 3
        (some { value := "x", expires := 5 }) []).2
        = .error .expiredSessionCookie
      ↔ (3 : Time) < 5 :=
  c9_cookie_expiry_check_inverted c9cy 3 [] { value := "x", expires := 5 } "x"
    rfl

def c1cy : StringCypher :=
  { encodeCookie := fun s => s, decodeCookie := fun s => some s }

def c1user : User := { id := 7, name := "alice", roles := [1], image := "" }

/-- C1: the session round-trip fails on the code.  A session is created at
time 0 with TTL 10; the resulting cookie (value and attributes as set, in
particular `Expires = now + OneDayDuration`) is read back at time 1, before
the TTL elapses — and `ReadSessionCookie` rejects it as an expired session
cookie, because the source's check `cookie.Expires.After(time.Now())`
rejects cookies whose `Expires` lies in the future.  The user is never
returned. -/
theorem c1_session_roundtrip_rejected :
    (Manager.ReadSessionCookie c1cy 1
        (some (Manager.CreateSessionCookie c1cy
          { secure := true, invalidate := true } 10 "sid" 0 c1user []).2)
        (Manager.CreateSessionCookie c1cy
          { secure := true, invalidate := true } 10 "sid" 0 c1user []).1).2
      = .error .expiredSessionCookie := by
  decide

/-- C3: with `Invalidate` enabled, creating session B for principal P while
session A for the same P exists causes any later read of A's id to fail
(with `EntryNotFound`); with `Invalidate` disabled, both A and B can still
be read successfully until their respective timeouts pass.  The fresh id is
assumed distinct from A's id (the source draws it from 256 random bits). -/
theorem c3_session_renewal_invalidation (sec : Bool) (ttl : Time)
    (freshId : Id) (now : Time) (userP : User) (s : MemoryStore) (A : Entry)
    (h : MemoryStore.keysNodup s) (hA : s.lookup A.id = some A)
    (hAP : A.user.id = userP.id) (hne : freshId ≠ A.id)
    (hAvalid : now < A.timeout) (httl : 0 < ttl) :
    (∀ t, (Manager.GetUserIfValid t
        (Manager.Add { secure := sec, invalidate := true }
          ttl freshId now userP s).1 A.id).2
          = .error .entryNotFound)
  ∧ (∀ t, t < A.timeout →
      (Manager.GetUserIfValid t
        (Manager.Add { secure := sec, invalidate := false }
          ttl freshId now userP s).1 A.id).2
          = .ok A.user)
  ∧ (∀ t, t < now + ttl →
      (Manager.GetUserIfValid t
        (Manager.Add { secure := sec, invalidate := false }
          ttl freshId now userP s).1 freshId).2
          = .ok userP) := by
  have hAddT : (Manager.Add { secure := sec, invalidate := true }
      ttl freshId now userP s).1
      = MemoryStore.RecollectGarbage
          (MemoryStore.Save (MemoryStore.Invalidate s userP.id)
            { id := freshId, user := userP, timeout := now + ttl }) now := rfl
  have hAddF : (Manager.Add { secure := sec, invalidate := false }
      ttl freshId now userP s).1
      = MemoryStore.RecollectGarbage
          (MemoryStore.Save s
            { id := freshId, user := userP, timeout := now + ttl }) now := rfl
  refine ⟨?_, ?_, ?_⟩
  · -- Invalidate enabled: A's entry is gone from the store.
    have hnd1 : MemoryStore.keysNodup (MemoryStore.Invalidate s userP.id) :=
      MemoryStore.keysNodup_Invalidate userP.id h
    have hndS : MemoryStore.keysNodup
        (MemoryStore.Save (MemoryStore.Invalidate s userP.id)
          { id := freshId, user := userP, timeout := now + ttl }) :=
      MemoryStore.keysNodup_Save _ hnd1
    have hnd3 : MemoryStore.keysNodup
        (MemoryStore.RecollectGarbage
          (MemoryStore.Save (MemoryStore.Invalidate s userP.id)
            { id := freshId, user := userP, timeout := now + ttl }) now) :=
      MemoryStore.keysNodup_RecollectGarbage now hndS
    have hlk1 : (MemoryStore.Invalidate s userP.id).lookup A.id = none := by
      rw [MemoryStore.Invalidate_lookup s userP.id A.id h, hA]
      show (if A.user.id = userP.id then none else some A) = none
      exact if_pos hAP
    have hlk2 : (MemoryStore.Save (MemoryStore.Invalidate s userP.id)
        { id := freshId, user := userP, timeout := now + ttl }).lookup A.id
        = none := by
      rw [MemoryStore.lookup_Save_ne _ _ A.id (Ne.symm hne)]
      exact hlk1
    have hlk3 := gc_lookup_none now hndS hlk2
    intro t
    rw [hAddT, getUserIfValid_eq_of_gc_none t _ A.id (gc_lookup_none t hnd3 hlk3)]
  · -- Invalidate disabled: A survives and stays readable while valid.
    have hndS : MemoryStore.keysNodup
        (MemoryStore.Save s { id := freshId, user := userP, timeout := now + ttl }) :=
      MemoryStore.keysNodup_Save _ h
    have hnd3 : MemoryStore.keysNodup
        (MemoryStore.RecollectGarbage
          (MemoryStore.Save s
            { id := freshId, user := userP, timeout := now + ttl }) now) :=
      MemoryStore.keysNodup_RecollectGarbage now hndS
    have hlkA2 : (MemoryStore.Save s
        { id := freshId, user := userP, timeout := now + ttl }).lookup A.id
        = some A := by
      rw [MemoryStore.lookup_Save_ne _ _ A.id (Ne.symm hne)]
      exact hA
    have hlkA3 : (MemoryStore.RecollectGarbage
        (MemoryStore.Save s
          { id := freshId, user := userP, timeout := now + ttl }) now).lookup A.id
        = some A := gc_lookup_valid now hndS hlkA2 hAvalid
    intro t ht
    rw [hAddF, getUserIfValid_eq_of_gc_valid t _ A.id A
      (gc_lookup_valid t hnd3 hlkA3 ht) ht]
  · -- Invalidate disabled: B is readable while its TTL has not passed.
    have hndS : MemoryStore.keysNodup
        (MemoryStore.Save s { id := freshId, user := userP, timeout := now + ttl }) :=
      MemoryStore.keysNodup_Save _ h
    have hnd3 : MemoryStore.keysNodup
        (MemoryStore.RecollectGarbage
          (MemoryStore.Save s
            { id := freshId, user := userP, timeout := now + ttl }) now) :=
      MemoryStore.keysNodup_RecollectGarbage now hndS
    have hlkB2 : (MemoryStore.Save s
        { id := freshId, user := userP, timeout := now + ttl }).lookup freshId
        = some { id := freshId, user := userP, timeout := now + ttl } :=
      MemoryStore.lookup_Save_self s
        { id := freshId, user := userP, timeout := now + ttl }
    have hlkB3 : (MemoryStore.RecollectGarbage
        (MemoryStore.Save s
          { id := freshId, user := userP, timeout := now + ttl }) now).lookup
        freshId = some { id := freshId, user := userP, timeout := now + ttl } :=
      gc_lookup_valid now hndS hlkB2 (lt_add_of_pos_right now httl)
    intro t ht
    rw [hAddF, getUserIfValid_eq_of_gc_valid t _ freshId
      { id := freshId, user := userP, timeout := now + ttl }
      (gc_lookup_valid t hnd3 hlkB3 ht) ht]

def c3userP : User := { id := 9, name := "carol", roles := [2], image := "" }

def c3A : Entry := { id := "a", user := c3userP, timeout := 100 }

theorem c3_session_renewal_invalidation_witness :
    ((Manager.GetUserIfValid 10
        (Manager.Add { secure := true, invalidate := true }
          50 "b" 0 c3userP [("a", c3A)]).1 "a").2
        = .error .entryNotFound)
  ∧ ((Manager.GetUserIfValid 10
        (Manager.Add { secure := true, invalidate := false }
          50 "b" 0 c3userP [("a", c3A)]).1 "a").2
        = .ok c3A.user)
  ∧ ((Manager.GetUserIfValid 10
        (Manager.Add { secure := true, invalidate := false }
          50 "b" 0 c3userP [("a", c3A)]).1 "b").2
        = .ok c3userP) := by
  have hmain := c3_session_renewal_invalidation true 50 "b" 0 c3userP
    [("a", c3A)] c3A (by decide) (by decide) (by decide) (by decide)
    (by decide) (by decide)
  exact ⟨hmain.1 10, hmain.2.1 10 (by decide), hmain.2.2 10 (by decide)⟩

theorem c2_session_expiry_entry_not_found_witness :
    (Manager.GetUserIfValid 10 c2store "a").2 = .error .entryNotFound
      ∧ MemoryStore.Get (Manager.GetUserIfValid 10 c2store "a").1 "a"
          = .error .entryNotFound :=
  c2_session_expiry_entry_not_found c2store "a"
    { id := "a", user := { id := 1, name := "bob", roles := [], image := "" },
      timeout := 5 }
    10 (by decide) (by decide) (by decide)

/-! ### CSRF tokens (`csrf/csrf.go`) -/

/-- `csrf.Csrf`: a cypher (used through `cypher.EncodeCookie` /
`cypher.DecodeCookie`) and the token TTL. -/
structure Csrf where
  cipher : StringCypher
  expires : Time

/-- `csrf.Check`'s `const minimumParts = 2`. -/
def minimumParts : Nat := 2

/-- `strings.Split(raw, tokenDelimiter)` with `tokenDelimiter = "::"`,
modelled on the character list of `raw` and specialised to the two-colon
delimiter so that the recursion is structural: scans left to right, cutting
at each non-overlapping occurrence of `"::"` and keeping empty pieces. -/
def splitDelim : List Char → List (List Char)
  | [] => [[]]
  | ':' :: ':' :: rest => [] :: splitDelim rest
  | c :: rest =>
    match splitDelim rest with
    | [] => [[c]]
    | part :: parts => (c :: part) :: parts

/-- Decimal digit accumulator used by `parseInt64`. -/
def parseDigits : Nat → List Char → Option Nat
  | acc, [] => some acc
  | acc, c :: rest =>
    if c.isDigit then parseDigits (10 * acc + (c.toNat - 48)) rest
    else none

/-- `strconv.ParseInt(s, core.IntBase10, core.Size64)`: an optional leading
sign followed by decimal digits; fails on an empty string, on any non-digit
character, and on values outside the int64 range. -/
def parseInt64 (s : List Char) : Option Int :=
  let signAndDigits : Int × List Char :=
    match s with
    | '+' :: rest => (1, rest)
    | '-' :: rest => (-1, rest)
    | l => (1, l)
  if signAndDigits.2.isEmpty then none
  else
    match parseDigits 0 signAndDigits.2 with
    | none => none
    | some n =>
      let v : Int := signAndDigits.1 * n
      if v < -(2 ^ 63) ∨ 2 ^ 63 - 1 < v then none else some v

/-- `Csrf.Check`: decrypts the token, splits the payload on the delimiter,
requires at least `minimumParts` parts, parses `parts[1]` as an int64 unix
time, and rejects the token when
`time.Unix(i, 0).Add(csrf.expires).Before(time.Now())`.  (The index
`parts[1]` is taken with a default, which the length guard makes
irrelevant.) -/
def Csrf.Check (csrf : Csrf) (now : Time) (token : String) : Bool :=
  match csrf.cipher.decodeCookie token with
  | none => false
  | some raw =>
    let parts := splitDelim raw.data
    if parts.length < minimumParts then false
    else
      match parseInt64 (parts.getD 1 []) with
      | none => false
      | some i =>
        if i + csrf.expires < now then false
        else true

/-- The parts of an `*http.Request` that `CheckRequest` inspects:
`req.Method`, `req.FormValue(CsrfHeaderName)` and
`req.Header.Get(CsrfHeaderName)`; the latter two return `""` when the
form field or header is absent. -/
structure CsrfRequest where
  method : String
  formValue : String
  headerValue : String
deriving DecidableEq, Repr

theorem string_length_eq_zero_iff (s : String) : s.length = 0 ↔ s = "" := by
  constructor
  · intro h
    apply String.ext
    have h2 : s.data.length = 0 := h
    rw [List.length_eq_zero.mp h2]
  · intro h
    subst h
    rfl

/-- `Csrf.CheckRequest`: returns true outright for GET and HEAD; otherwise
takes the token from the form field, falling back to the header, and fails
when both are empty. -/
def Csrf.CheckRequest (csrf : Csrf) (now : Time) (req : CsrfRequest) : Bool :=
  if req.method == "GET" || req.method == "HEAD" then true
  else if req.formValue.length == 0 then
    (if req.headerValue.length == 0 then false
     else Csrf.Check csrf now req.headerValue)
  else Csrf.Check csrf now req.formValue

def c5csrf : Csrf :=
  { cipher := { encodeCookie := fun s => s, decodeCookie := fun s => some s },
    expires := 100 }

/-- C5 counterexample: an OPTIONS request carrying no token in either the
form field or the header is rejected by `CheckRequest`, though the claim
says the OPTIONS method bypasses validation. -/
theorem c5_csrf_options_counterexample :
    Csrf.CheckRequest c5csrf 0
      { method := "OPTIONS", formValue := "", headerValue := "" } = false := by
  decide

/-- C5 (amended): `CheckRequest` bypasses validation only for GET and HEAD
— OPTIONS is validated like every other non-GET/HEAD method; for those
methods it reads the token from the form field first, then the header, and
treats absence (emptiness) of both as invalid. -/
theorem c5_csrf_request_check (csrf : Csrf) (now : Time) (req : CsrfRequest) :
    ((req.method = "GET" ∨ req.method = "HEAD") →
        Csrf.CheckRequest csrf now req = true)
  ∧ (req.method ≠ "GET" → req.method ≠ "HEAD" →
      Csrf.CheckRequest csrf now req
        = (if req.formValue ≠ "" then Csrf.Check csrf now req.formValue
           else if req.headerValue ≠ "" then Csrf.Check csrf now req.headerValue
           else false)) := by
  constructor
  · intro hq
    rcases hq with hq | hq
    · simp [Csrf.CheckRequest, hq]
    · simp [Csrf.CheckRequest, hq]
  · intro hg hh
    have hgb : (req.method == "GET") = false := beq_eq_false_iff_ne.mpr hg
    have hhb : (req.method == "HEAD") = false := beq_eq_false_iff_ne.mpr hh
    by_cases hf : req.formValue = ""
    · by_cases hhv : req.headerValue = ""
      · simp [Csrf.CheckRequest, hgb, hhb, hf, hhv]
      · simp [Csrf.CheckRequest, hgb, hhb, hf, hhv, string_length_eq_zero_iff]
    · simp [Csrf.CheckRequest, hgb, hhb, hf, string_length_eq_zero_iff]

theorem c5_csrf_request_check_witness :
    Csrf.CheckRequest c5csrf 0
        { method := "GET", formValue := "", headerValue := "" } = true
  ∧ Csrf.CheckRequest c5csrf 0
        { method := "POST", formValue := "", headerValue := "" }
      = (if ("" : String) ≠ "" then Csrf.Check c5csrf 0 ""
         else if ("" : String) ≠ "" then Csrf.Check c5csrf 0 ""
         else false) :=
  ⟨(c5_csrf_request_check c5csrf 0
      { method := "GET", formValue := "", headerValue := "" }).1 (Or.inl rfl),
   (c5_csrf_request_check c5csrf 0
      { method := "POST", formValue := "", headerValue := "" }).2
      (by decide) (by decide)⟩

/-- The validity predicate as the claim words it: a token is valid iff it
decrypts successfully, the decrypted payload splits into exactly the
expected number of delimiter-separated parts, the timestamp part parses as
an integer, and `issuedAt + ttl > now`. -/
def csrfSpecValid (csrf : Csrf) (now : Time) (token : String) : Bool :=
  match csrf.cipher.decodeCookie token with
  | none => false
  | some raw =>
    let parts := splitDelim raw.data
    if parts.length = minimumParts then
      match parseInt64 (parts.getD 1 []) with
      | none => false
      | some i => decide (now < i + csrf.expires)
    else false

def c6csrf : Csrf :=
  { cipher := { encodeCookie := fun s => s, decodeCookie := fun s => some s },
    expires := 100 }

/-- C6 counterexample: the token "a::5::b" decrypts (identity cypher),
splits into three parts — not exactly the expected two — and satisfies
`issuedAt + ttl = now` at time 105 (so not `issuedAt + ttl > now`), yet
`Check` accepts it. -/
theorem c6_csrf_token_validity_counterexample :
    Csrf.Check c6csrf 105 "a::5::b" = true
      ∧ csrfSpecValid c6csrf 105 "a::5::b" = false := by
  decide

/-- C6 (amended): `Check(token)` returns valid iff the token decrypts, the
decrypted payload splits into at least `minimumParts` (2) delimiter-separated
parts, the second part parses as an int64, and `now ≤ issuedAt + ttl`
(the token is rejected only when its expiry time is strictly before now). -/
theorem c6_csrf_token_validity (csrf : Csrf) (now : Time) (token : String) :
    Csrf.Check csrf now token = true ↔
      ∃ raw, csrf.cipher.decodeCookie token = some raw
        ∧ minimumParts ≤ (splitDelim raw.data).length
        ∧ ∃ i, parseInt64 ((splitDelim raw.data).getD 1 []) = some i
            ∧ now ≤ i + csrf.expires := by
  simp only [Csrf.Check]
  cases hdec : csrf.cipher.decodeCookie token with
  | none => simp
  | some raw =>
    simp only [Option.some.injEq, exists_eq_left']
    by_cases hlen : (splitDelim raw.data).length < minimumParts
    · rw [if_pos hlen]
      have h2 : ¬ minimumParts ≤ (splitDelim raw.data).length := not_le.mpr hlen
      simp [h2]
    · rw [if_neg hlen]
      have hge : minimumParts ≤ (splitDelim raw.data).length := not_lt.mp hlen
      cases hp : parseInt64 ((splitDelim raw.data).getD 1 []) with
      | none => simp
      | some i =>
        simp only [Option.some.injEq, exists_eq_left']
        by_cases ht : i + csrf.expires < now
        · rw [if_pos ht]
          have h3 : ¬ now ≤ i + csrf.expires := not_le.mpr ht
          simp [h3]
        · rw [if_neg ht]
          have h3 : now ≤ i + csrf.expires := not_lt.mp ht
          simp [hge, h3]

/-! ### AES-256-GCM cypher (`cypher/aes256.go`, `cypher/cookie.go`) -/

/-- `crypto/cipher.AEAD` as held by `cypher.AES256`: the GCM instance itself
is Go standard-library code (outside this repository), so it is abstracted
as a nonce size, a `Seal` function and an `Open` function; `Open` fails
(returns `none`) exactly when the authentication-tag check fails.  Byte
slices are lists of numbers. -/
structure AEAD where
  nonceSize : Nat
  Seal : List Nat → List Nat → List Nat
  Open : List Nat → List Nat → Option (List Nat)

/-- The two failure modes of `AES256.Decrypt`: "malformed AES256 encryted
data" and the wrapped AEAD `Open` error. -/
inductive CypherError where
  | malformedCiphertext
  | authenticationFailure
deriving DecidableEq, Repr

/-- `AES256.Encrypt`: `dst := aes.cipher.Seal(nonce, nonce, data, nil)` —
the sealed ciphertext with the freshly generated random nonce prepended
(the nonce is passed in explicitly here). -/
def AES256.Encrypt (a : AEAD) (nonce data : List Nat) : List Nat :=
  nonce ++ a.Seal nonce data

/-- `AES256.Decrypt`: fails when the input is shorter than the nonce size;
otherwise splits off the nonce and opens the remainder. -/
def AES256.Decrypt (a : AEAD) (data : List Nat) :
    Except CypherError (List Nat) :=
  if data.length < a.nonceSize then .error .malformedCiphertext
  else
    match a.Open (data.take a.nonceSize) (data.drop a.nonceSize) with
    | none => .error .authenticationFailure
    | some plaintext => .ok plaintext

/-- C7: decrypting the encryption of any byte payload (including the empty
one) with the same cypher instance returns the payload — given the
standard-library AEAD's round-trip property at the nonce that was used —
and `Decrypt` fails with the malformed-ciphertext error on every input
shorter than the nonce size. -/
theorem c7_cypher_roundtrip (a : AEAD) (nonce data blob : List Nat)
    (hn : nonce.length = a.nonceSize)
    (hopen : a.Open nonce (a.Seal nonce data) = some data)
    (hshort : blob.length < a.nonceSize) :
    AES256.Decrypt a (AES256.Encrypt a nonce data) = .ok data
      ∧ AES256.Decrypt a blob = .error .malformedCiphertext := by
  constructor
  · unfold AES256.Decrypt AES256.Encrypt
    have hlen : ¬ (nonce ++ a.Seal nonce data).length < a.nonceSize := by
      rw [List.length_append, hn]
      exact not_lt.mpr (Nat.le_add_right _ _)
    rw [if_neg hlen, List.take_left' hn, List.drop_left' hn, hopen]
  · unfold AES256.Decrypt
    rw [if_pos hshort]

def c7aead : AEAD :=
  { nonceSize := 1, Seal := fun _ d => d, Open := fun _ c => some c }

theorem c7_cypher_roundtrip_witness :
    AES256.Decrypt c7aead (AES256.Encrypt c7aead [0] [3, 4]) = .ok [3, 4]
      ∧ AES256.Decrypt c7aead [] = .error .malformedCiphertext :=
  c7_cypher_roundtrip c7aead [0] [3, 4] [] rfl rfl (by decide)

/-- `core.Size32`. -/
def Size32 : Nat := 32

/-- `cypher.generateCipher`: panics (`log.Panicln`) unless the password is
exactly `core.Size32` bytes — modelled as `none`; with a 32-byte key,
`aes.NewCipher` and `cipher.NewGCM` succeed (documented Go standard-library
behaviour for AES-256), modelled as `some` of the GCM AEAD built from the
key by the ambient `gcmOf`. -/
def generateCipher (gcmOf : List Nat → AEAD) (pass : List Nat) :
    Option AEAD :=
  if pass.length ≠ Size32 then none
  else some (gcmOf pass)

/-- `cypher.NewWithPassword`. -/
def NewWithPassword (gcmOf : List Nat → AEAD) (password : List Nat) :
    Option AEAD :=
  generateCipher gcmOf password

/-- C8: constructing a cypher with a key whose length is not exactly 32
bytes fails fast (the source panics in `generateCipher`) for every such
key, and with a 32-byte key construction succeeds. -/
theorem c8_cypher_key_length (gcmOf : List Nat → AEAD)
    (password : List Nat) :
    NewWithPassword gcmOf password = none ↔ password.length ≠ Size32 := by
  unfold NewWithPassword generateCipher
  by_cases h : password.length = Size32
  · simp [h]
  · simp [h]

/-! ### Dependency injector (`injector.go`) -/

/-- `owl.Injector`: the builder mapping, keyed by the builder's output type
(`reflect.TypeOf(builder).Out(0)`).  Types are identified by numbers; a
registered builder is represented by the list of its declared input types
(`reflect.Type.In(i)`, in parameter order), which is all that resolution
failure depends on. -/
structure Injector where
  builders : Nat → Option (List Nat)

/-- The outcome of a resolution.  `GetByType` either produces a value,
returns the "builder not found for type t" error, or — when `CallBuilder`
hits a failing transitive dependency — panics carrying that error;
`stackOverflow` models the unbounded recursion on cyclic builder graphs
(fuel exhaustion). -/
inductive ResolveOutcome where
  | ok
  | returnedError (t : Nat)
  | panicked (t : Nat)
  | stackOverflow
deriving DecidableEq, Repr

mutual

/-- `Injector.GetByType`: returns the `UnresolvedDependency` error when no
builder is registered for the requested type, and otherwise calls the
builder; `fuel` bounds the recursion depth (the Go call stack). -/
def Injector.GetByType (inj : Injector) (fuel : Nat) (t : Nat) :
    ResolveOutcome :=
  match fuel with
  | 0 => .stackOverflow
  | f + 1 =>
    match inj.builders t with
    | none => .returnedError t
    | some ins => Injector.CallBuilder inj f ins
termination_by (fuel, 0)

/-- `Injector.CallBuilder`: resolves each declared input type left to right
with `GetByType` and panics with the inner error on the first failure. -/
def Injector.CallBuilder (inj : Injector) (fuel : Nat) (l : List Nat) :
    ResolveOutcome :=
  match l with
  | [] => .ok
  | u :: rest =>
    match Injector.GetByType inj fuel u with
    | .ok => Injector.CallBuilder inj fuel rest
    | .returnedError v => .panicked v
    | .panicked v => .panicked v
    | .stackOverflow => .stackOverflow
termination_by (fuel, l.length + 1)

end

theorem callBuilder_ne_returnedError (inj : Injector) (fuel : Nat) :
    ∀ (l : List Nat) (u : Nat),
      Injector.CallBuilder inj fuel l ≠ .returnedError u := by
  intro l
  induction l with
  | nil =>
    intro u h
    have hval : Injector.CallBuilder inj fuel [] = .ok := by
      simp [Injector.CallBuilder]
    rw [hval] at h
    cases h
  | cons v rest ih =>
    intro u h
    cases hg : Injector.GetByType inj fuel v with
    | ok =>
      have hval : Injector.CallBuilder inj fuel (v :: rest)
          = Injector.CallBuilder inj fuel rest := by
        simp [Injector.CallBuilder, hg]
      rw [hval] at h
      exact ih u h
    | returnedError w =>
      have hval : Injector.CallBuilder inj fuel (v :: rest) = .panicked w := by
        simp [Injector.CallBuilder, hg]
      rw [hval] at h
      cases h
    | panicked w =>
      have hval : Injector.CallBuilder inj fuel (v :: rest) = .panicked w := by
        simp [Injector.CallBuilder, hg]
      rw [hval] at h
      cases h
    | stackOverflow =>
      have hval : Injector.CallBuilder inj fuel (v :: rest)
          = .stackOverflow := by
        simp [Injector.CallBuilder, hg]
      rw [hval] at h
      cases h

theorem getByType_returnedError_iff (inj : Injector) (fuel t u : Nat) :
    Injector.GetByType inj (fuel + 1) t = .returnedError u
      ↔ (u = t ∧ inj.builders t = none) := by
  constructor
  · intro h
    cases hb : inj.builders t with
    | none =>
      have hval : Injector.GetByType inj (fuel + 1) t = .returnedError t := by
        simp [Injector.GetByType, hb]
      rw [hval] at h
      injection h with h2
      exact ⟨h2.symm, rfl⟩
    | some ins =>
      have hval : Injector.GetByType inj (fuel + 1) t
          = Injector.CallBuilder inj fuel ins := by
        simp [Injector.GetByType, hb]
      rw [hval] at h
      exact absurd h (callBuilder_ne_returnedError inj fuel ins u)
  · rintro ⟨hu, hb⟩
    subst hu
    simp [Injector.GetByType, hb]

theorem panicked_missing (inj : Injector) :
    ∀ fuel : Nat,
      (∀ t u : Nat, Injector.GetByType inj fuel t = .panicked u
        → inj.builders u = none)
    ∧ (∀ (l : List Nat) (u : Nat),
        Injector.CallBuilder inj fuel l = .panicked u
          → inj.builders u = none) := by
  intro fuel
  induction fuel with
  | zero =>
    constructor
    · intro t u h
      have hval : Injector.GetByType inj 0 t = .stackOverflow := by
        simp [Injector.GetByType]
      rw [hval] at h
      cases h
    · intro l
      induction l with
      | nil =>
        intro u h
        have hval : Injector.CallBuilder inj 0 [] = .ok := by
          simp [Injector.CallBuilder]
        rw [hval] at h
        cases h
      | cons v rest ihl =>
        intro u h
        have hval : Injector.CallBuilder inj 0 (v :: rest)
            = .stackOverflow := by
          simp [Injector.CallBuilder, Injector.GetByType]
        rw [hval] at h
        cases h
  | succ f ihf =>
    have hget : ∀ t u : Nat, Injector.GetByType inj (f + 1) t = .panicked u
        → inj.builders u = none := by
      intro t u h
      cases hb : inj.builders t with
      | none =>
        have hval : Injector.GetByType inj (f + 1) t = .returnedError t := by
          simp [Injector.GetByType, hb]
        rw [hval] at h
        cases h
      | some ins =>
        have hval : Injector.GetByType inj (f + 1) t
            = Injector.CallBuilder inj f ins := by
          simp [Injector.GetByType, hb]
        rw [hval] at h
        exact ihf.2 ins u h
    refine ⟨hget, ?_⟩
    intro l
    induction l with
    | nil =>
      intro u h
      have hval : Injector.CallBuilder inj (f + 1) [] = .ok := by
        simp [Injector.CallBuilder]
      rw [hval] at h
      cases h
    | cons v rest ihl =>
      intro u h
      cases hg : Injector.GetByType inj (f + 1) v with
      | ok =>
        have hval : Injector.CallBuilder inj (f + 1) (v :: rest)
            = Injector.CallBuilder inj (f + 1) rest := by
          simp [Injector.CallBuilder, hg]
        rw [hval] at h
        exact ihl u h
      | returnedError w =>
        have hval : Injector.CallBuilder inj (f + 1) (v :: rest)
            = .panicked w := by
          simp [Injector.CallBuilder, hg]
        rw [hval] at h
        injection h with h2
        have h3 := (getByType_returnedError_iff inj f v w).mp hg
        rw [← h2, h3.1]
        exact h3.2
      | panicked w =>
        have hval : Injector.CallBuilder inj (f + 1) (v :: rest)
            = .panicked w := by
          simp [Injector.CallBuilder, hg]
        rw [hval] at h
        injection h with h2
        rw [← h2]
        exact hget v w hg
      | stackOverflow =>
        have hval : Injector.CallBuilder inj (f + 1) (v :: rest)
            = .stackOverflow := by
          simp [Injector.CallBuilder, hg]
        rw [hval] at h
        cases h

/-- C4: `GetByType` returns the `UnresolvedDependency` error
("builder not found for type ...") if and only if no builder is registered
for the requested type; and whenever the resolution fails by panicking on a
missing transitive dependency, the type carried by the panic is itself an
unregistered (deepest missing) type — never the registered root type. -/
theorem c4_injector_unresolved (inj : Injector) (fuel t u : Nat) :
    (Injector.GetByType inj (fuel + 1) t = .returnedError u
        ↔ (u = t ∧ inj.builders t = none))
  ∧ (Injector.GetByType inj (fuel + 1) t = .panicked u
        → inj.builders u = none) :=
  ⟨getByType_returnedError_iff inj fuel t u,
   fun h => (panicked_missing inj (fuel + 1)).1 t u h⟩

def c4inj : Injector :=
  { builders := fun t => if t = 0 then some [1] else none }

theorem c4_injector_unresolved_witness :
    Injector.GetByType c4inj 2 0 = .panicked 1 ∧ c4inj.builders 1 = none := by
  have hval : Injector.GetByType c4inj 2 0 = .panicked 1 := by
    simp [Injector.GetByType, Injector.CallBuilder, c4inj]
  exact ⟨hval, (c4_injector_unresolved c4inj 1 0 1).2 hval⟩

end Owl
